import Mathlib

/-!
Verification of the metric-watch / trend-detection engine of the
`rusticated_api_bot` repository, as a shallow embedding in Lean 4.

The embedding translates, from the Python source:

* `rustinity_bot/watchers.py`:
  `track_watch_clan_all_stats`, `track_watch_players_all_stats`,
  `log_top_and_detect_spikes`, and the fetch/caching skeleton of
  `post_walobots_update`, together with the module constants
  `ALERT_THRESHOLDS` and `TREND_TOP_N`;
* `rustinity_bot/storage.py`:
  `add_watch_clan`, `remove_watch_clan`, `get_watch_clans`,
  `add_clan_metric_snapshot` (as list append) and
  `get_clan_metric_changes`;
* `rustinity_bot/embeds.py`: the per-metric trend computation inside
  `build_trend_embed`;
* `rustinity_bot/rustinity_client.py`:
  `fetch_player_leaderboard` / `fetch_leaderboard_for_metric`
  (error handling shape) and `parse_leaderboard_rows`.

Numeric stat values are modelled as rationals; Python string truthiness
(`a or b`, where the empty string is falsy) is modelled explicitly.
Discord message sends, which can fail, are modelled by a boolean oracle
indexed by the number of alerts attempted so far; an alert "attempted"
is an element of the `alerts` trace, and `sent` counts the successes.
-/

namespace RustinityBot

/-- Stat values (Python floats used as exact counters) are modelled as `ℚ`. -/
abbrev Val := ℚ

/-- Python `a or b` on strings: `""` is falsy, anything else truthy. -/
def orElseStr (a b : String) : String := if a = "" then b else a

/-- Composite key of the all-stats watch caches: `(group, subject, stat_key)`.
Mirrors `WATCH_CLAN_LAST_VALUES` / `WATCH_PLAYER_LAST_VALUES` keys in
`watchers.py`. -/
abbrev WatchKey := String × String × String

/-- Composite key of the spike-detector cache: `(metric_key, clan_name)`.
Mirrors `LAST_CLAN_METRIC_VALUES` keys in `watchers.py`. -/
abbrev SpikeKey := String × String

/-- A last-value cache (a Python dict `key -> float`), as a partial map. -/
abbrev Cache (κ : Type) := κ → Option Val

/-- Dict assignment `cache[key] = v`. -/
def updMap {κ : Type} [DecidableEq κ] (m : Cache κ) (k : κ) (v : Val) : Cache κ :=
  fun x => if x = k then some v else m x

/-- The delta computation of `watchers.py`:
`delta = 0.0 if last_val is None else current_val - last_val`. -/
def cacheDelta (last : Option Val) (v : Val) : Val :=
  match last with
  | none => 0
  | some l => v - l

/-- One leaderboard entry as consumed by the clan-side watchers: the
fields of the row dict that `watchers.py` reads.  A missing or falsy
string field is modelled as `""`; a stat whose value does not parse as
`float` is modelled as `none`. -/
structure ClanRow where
  name : String := ""
  clanName : String := ""
  rank : Option Int := none
  stats : List (String × Option Val) := []
deriving DecidableEq

/-- Clan-name extraction of `watchers.py`:
`str(row.get("name") or row.get("clanName") or "").strip()`. -/
def ClanRow.rawName (r : ClanRow) : String := (orElseStr r.name r.clanName).trim

/-- An alert message attempted by `track_watch_clan_all_stats`
(the data interpolated into the message text). -/
structure WatchAlert where
  clan : String
  stat : String
  delta : Val
  value : Val
  rank : Option Int
deriving DecidableEq

/-- State threaded through `track_watch_clan_all_stats`: the
`WATCH_CLAN_LAST_VALUES` cache, the trace of attempted alerts, and the
`alerts_sent` counter. -/
structure WatchState where
  cache : Cache WatchKey
  alerts : List WatchAlert
  sent : ℕ

/-- Body of the inner `for stat_key, current_val in stats.items()` loop of
`track_watch_clan_all_stats`.  `sendOk i` tells whether the `i`-th
attempted `alert_channel.send` succeeds (the exception is swallowed). -/
def processClanStat (group clanLower clanRaw : String) (rank : Option Int)
    (sendOk : ℕ → Bool) (acc : WatchState) (s : String × Option Val) : WatchState :=
  match s.2 with
  | none => acc
  | some v =>
    let key : WatchKey := (group, clanLower, s.1)
    let delta := cacheDelta (acc.cache key) v
    let cache2 := updMap acc.cache key v
    if delta ≤ 0 then { acc with cache := cache2 }
    else
      { cache := cache2
        alerts := acc.alerts ++ [⟨clanRaw, s.1, delta, v, rank⟩]
        sent := acc.sent + (if sendOk acc.alerts.length then 1 else 0) }

/-- Body of the outer `for row in rows` loop of
`track_watch_clan_all_stats`: skip rows with a falsy name, skip rows whose
lowercased name is not watched, else diff every numeric stat. -/
def processClanRow (group : String) (watchedLower : List String)
    (sendOk : ℕ → Bool) (acc : WatchState) (row : ClanRow) : WatchState :=
  let raw := row.rawName
  if raw = "" then acc
  else if raw.toLower ∈ watchedLower then
    row.stats.foldl (processClanStat group raw.toLower raw row.rank sendOk) acc
  else acc

/-- `track_watch_clan_all_stats` from `watchers.py`.  `watchClans` is the
result of `get_watch_clans()`; the function lowercases it into a set before
matching.  Returns the final cache, the attempted alerts and the number of
alerts sent. -/
def track_watch_clan_all_stats (group : String) (watchClans : List String)
    (rows : List ClanRow) (cache : Cache WatchKey) (sendOk : ℕ → Bool) : WatchState :=
  if watchClans = [] then ⟨cache, [], 0⟩
  else if rows = [] then ⟨cache, [], 0⟩
  else rows.foldl (processClanRow group (watchClans.map String.toLower) sendOk)
    ⟨cache, [], 0⟩

/-- One player leaderboard entry as consumed by
`track_watch_players_all_stats`.  `clanName = ""` models a missing or
falsy `clanName` field; `username` defaults to `"Unknown"` as in
`row.get("username", "Unknown")`. -/
structure PlayerRow where
  steamId : String := ""
  username : String := "Unknown"
  clanName : String := ""
  rank : Option Int := none
  stats : List (String × Option Val) := []
deriving DecidableEq

/-- An alert message attempted by `track_watch_players_all_stats`. -/
structure PlayerAlert where
  username : String
  label : String
  stat : String
  delta : Val
  value : Val
  rank : Option Int
deriving DecidableEq

/-- State threaded through `track_watch_players_all_stats`. -/
structure PlayerState where
  cache : Cache WatchKey
  alerts : List PlayerAlert
  sent : ℕ

/-- Label resolution of `track_watch_players_all_stats`:
`extra_clans.get(steam_id) or row.get("clanName") or "Unknown"`
(Python `or`, with `None` and `""` falsy). -/
def resolveLabel (ov : Option String) (rowClan : String) : String :=
  orElseStr (ov.getD "") (orElseStr rowClan "Unknown")

/-- Body of the inner per-stat loop of `track_watch_players_all_stats`. -/
def processPlayerStat (group sid label username : String) (rank : Option Int)
    (sendOk : ℕ → Bool) (acc : PlayerState) (s : String × Option Val) : PlayerState :=
  match s.2 with
  | none => acc
  | some v =>
    let key : WatchKey := (group, sid, s.1)
    let delta := cacheDelta (acc.cache key) v
    let cache2 := updMap acc.cache key v
    if delta ≤ 0 then { acc with cache := cache2 }
    else
      { cache := cache2
        alerts := acc.alerts ++ [⟨username, label, s.1, delta, v, rank⟩]
        sent := acc.sent + (if sendOk acc.alerts.length then 1 else 0) }

/-- Body of the outer per-row loop of `track_watch_players_all_stats`:
rows with a falsy `steamId` are skipped; a row is tracked when the id is
in the watch registry or has a manual clan override
(`if steam_id not in watched_players and steam_id not in extra_clans:
continue`). -/
def processPlayerRow (group : String) (watchedPlayers : List String)
    (overrides : List (String × String)) (sendOk : ℕ → Bool)
    (acc : PlayerState) (row : PlayerRow) : PlayerState :=
  let sid := row.steamId.trim
  if sid = "" then acc
  else if sid ∉ watchedPlayers ∧ (overrides.lookup sid) = none then acc
  else
    let label := resolveLabel (overrides.lookup sid) row.clanName
    row.stats.foldl (processPlayerStat group sid label row.username row.rank sendOk) acc

/-- `track_watch_players_all_stats` from `watchers.py`.  `watchedPlayers`
is `get_watch_players()`; `overrides` is `settings.player_clan_overrides`
(an association list, first binding wins on lookup). -/
def track_watch_players_all_stats (group : String) (watchedPlayers : List String)
    (overrides : List (String × String)) (rows : List PlayerRow)
    (cache : Cache WatchKey) (sendOk : ℕ → Bool) : PlayerState :=
  if watchedPlayers = [] ∧ overrides = [] then ⟨cache, [], 0⟩
  else if rows = [] then ⟨cache, [], 0⟩
  else rows.foldl (processPlayerRow group watchedPlayers overrides sendOk) ⟨cache, [], 0⟩

/-- `ALERT_THRESHOLDS` from `watchers.py`: metric key to spike threshold. -/
def ALERT_THRESHOLDS : String → Option Val := fun k =>
  if k = "gathered_sulfur_ore" then some 5000
  else if k = "looted_hackable" then some 2
  else if k = "boom_rocket_basic" then some 50
  else if k = "looted_bradley_crates" then some 2
  else none

/-- `TREND_TOP_N` from `watchers.py`. -/
def TREND_TOP_N : ℕ := 5

/-- A row of the `clan_metric_history` table as inserted by
`add_clan_metric_snapshot` (the watcher does not choose the timestamp,
so the watcher-level record carries no `ts`). -/
structure Snapshot where
  metricKey : String
  clanName : String
  rank : Option Int
  value : Val
deriving DecidableEq

/-- An alert message attempted by `log_top_and_detect_spikes`. -/
structure SpikeAlert where
  clan : String
  metricKey : String
  delta : Val
  value : Val
  rank : Option Int
deriving DecidableEq

/-- State threaded through `log_top_and_detect_spikes`: snapshots appended
to the history store, the `LAST_CLAN_METRIC_VALUES` cache, attempted
alerts and the sent counter. -/
structure SpikeState where
  snapshots : List Snapshot
  cache : Cache SpikeKey
  alerts : List SpikeAlert
  sent : ℕ

/-- Body of the `for row in top_rows` loop of `log_top_and_detect_spikes`:
skip falsy names and non-numeric sort-field values, append a snapshot
unconditionally, then (for metrics with a configured threshold) diff
against the cache and alert when `delta >= threshold` unless the clan is
the configured own clan (case-insensitive). -/
def processSpikeRow (metricKey sortBy exemptClan : String) (sendOk : ℕ → Bool)
    (acc : SpikeState) (row : ClanRow) : SpikeState :=
  let raw := row.rawName
  if raw = "" then acc
  else
    match row.stats.lookup sortBy with
    | none => acc
    | some none => acc
    | some (some v) =>
      let acc1 := { acc with snapshots := acc.snapshots ++ [⟨metricKey, raw, row.rank, v⟩] }
      match ALERT_THRESHOLDS metricKey with
      | none => acc1
      | some threshold =>
        let key : SpikeKey := (metricKey, raw)
        let delta := cacheDelta (acc1.cache key) v
        let acc2 := { acc1 with cache := updMap acc1.cache key v }
        if delta < threshold then acc2
        else if raw.toLower = exemptClan.toLower then acc2
        else
          { acc2 with
            alerts := acc2.alerts ++ [⟨raw, metricKey, delta, v, row.rank⟩]
            sent := acc2.sent + (if sendOk acc2.alerts.length then 1 else 0) }

/-- `log_top_and_detect_spikes` from `watchers.py`.  Only the first
`TREND_TOP_N` rows are considered; `exemptClan` is `settings.clan_name`. -/
def log_top_and_detect_spikes (metricKey : String) (rows : List ClanRow)
    (sortBy exemptClan : String) (cache : Cache SpikeKey)
    (sendOk : ℕ → Bool) : SpikeState :=
  if rows = [] then ⟨[], cache, [], 0⟩
  else (rows.take TREND_TOP_N).foldl
    (processSpikeRow metricKey sortBy exemptClan sendOk) ⟨[], cache, [], 0⟩

/-- The `watch_clans` table (`clan_name TEXT PRIMARY KEY`): a list of
distinct names in insertion order.  `INSERT OR IGNORE` is insert-if-absent;
`DELETE` removes the matching name. -/
abbrev WatchClanTable := List String

/-- `add_watch_clan` from `storage.py`: no-op on a falsy name, otherwise
lowercase and `INSERT OR IGNORE`. -/
def add_watch_clan (db : WatchClanTable) (clanName : String) : WatchClanTable :=
  if clanName = "" then db
  else
    let n := clanName.toLower
    if n ∈ db then db else db ++ [n]

/-- `remove_watch_clan` from `storage.py`: no-op on a falsy name, otherwise
`DELETE ... WHERE clan_name = lowered name`. -/
def remove_watch_clan (db : WatchClanTable) (clanName : String) : WatchClanTable :=
  if clanName = "" then db
  else db.filter (fun c => c ≠ clanName.toLower)

/-- `get_watch_clans` from `storage.py`: the stored names. -/
def get_watch_clans (db : WatchClanTable) : List String := db

/-- A row of the `clan_metric_history` table, in rowid (insertion) order.
`value` is nullable in the schema. -/
structure SnapRow where
  metricKey : String
  clanName : String
  ts : Int
  rank : Option Int
  value : Option Val
deriving DecidableEq

/-- The `clan_metric_history` table: append-only list in rowid order. -/
abbrev Store := List SnapRow

/-- `add_clan_metric_snapshot` from `storage.py` with an explicit
timestamp: a plain `INSERT`. -/
def add_clan_metric_snapshot (store : Store) (metricKey clanName : String)
    (rank : Option Int) (value : Option Val) (ts : Int) : Store :=
  store ++ [⟨metricKey, clanName, ts, rank, value⟩]

/-- SQL `MIN(ts)` over a group (the group is never empty when consulted). -/
def tsMin : List Int → Int
  | [] => 0
  | t :: ts => ts.foldl min t

/-- SQL `MAX(ts)` over a group. -/
def tsMax : List Int → Int
  | [] => 0
  | t :: ts => ts.foldl max t

/-- One entry of the dict returned by `get_clan_metric_changes`. -/
structure ChangeEntry where
  start : Val
  endv : Val
  rank : Int
deriving DecidableEq

/-- `get_clan_metric_changes` from `storage.py`.  The grouping query is
`WHERE metric_key = ? AND ts >= cutoff GROUP BY clan_name` with
`cutoff = now - hours * 3600`; for each clan the first/last values are
looked up by exact timestamp over the whole table with `LIMIT 1` and no
`ORDER BY` (first row in rowid order).  `NULL` values and ranks render as
`0.0` / `0`. -/
def get_clan_metric_changes (store : Store) (now : Int) (metricKey : String)
    (hours : Int) : List (String × ChangeEntry) :=
  let cutoff := now - hours * 3600
  let inWin := store.filter (fun r => r.metricKey = metricKey ∧ cutoff ≤ r.ts)
  let clans := (inWin.map (·.clanName)).dedup
  clans.map (fun c =>
    let tss := (inWin.filter (fun r => r.clanName = c)).map (·.ts)
    let firstTs := tsMin tss
    let lastTs := tsMax tss
    let firstRow := (store.filter
      (fun r => r.metricKey = metricKey ∧ r.clanName = c ∧ r.ts = firstTs)).head?
    let lastRow := (store.filter
      (fun r => r.metricKey = metricKey ∧ r.clanName = c ∧ r.ts = lastTs)).head?
    let start := (firstRow.bind (·.value)).getD 0
    let endv := (lastRow.bind (·.value)).getD 0
    let rank := (lastRow.bind (·.rank)).getD 0
    (c, ⟨start, endv, rank⟩))

/-- One clan's data in the trend dict handed to `build_trend_embed`
(`start`, `end`, `rank` as produced by `get_clan_metric_changes`), in the
dict's iteration order. -/
structure TrendInfo where
  clan : String
  start : Val
  endv : Val
  rank : Int
deriving DecidableEq

/-- One tuple `(clan, delta, end_val, rank)` built by `build_trend_embed`. -/
structure TrendRow where
  clan : String
  delta : Val
  endv : Val
  rank : Int
deriving DecidableEq

/-- Stable descending insertion by `delta`: an element is placed before
the first element whose delta is not larger, so earlier elements precede
later ones on ties — the ordering produced by Python's stable
`rows.sort(key=lambda r: r[1], reverse=True)`. -/
def insertDesc (x : TrendRow) : List TrendRow → List TrendRow
  | [] => [x]
  | y :: ys => if y.delta ≤ x.delta then x :: y :: ys else y :: insertDesc x ys

/-- Stable sort, descending by `delta`. -/
def sortByDeltaDesc (rows : List TrendRow) : List TrendRow :=
  rows.foldr insertDesc []

/-- The per-metric trend computation inside `build_trend_embed`
(`embeds.py`): compute `delta = end - start` per clan, sort descending by
delta, keep the top 5, and drop entries with `delta <= 0`. -/
def trendView (trend : List TrendInfo) : List TrendRow :=
  let rows := trend.map (fun i => TrendRow.mk i.clan (i.endv - i.start) i.endv i.rank)
  ((sortByDeltaDesc rows).take 5).filter (fun r => ¬ r.delta ≤ 0)

/-- One entry of `METRICS` (`rustinity_client.py`): key, upstream group,
sort field.  `post_walobots_update` iterates over the metric keys. -/
structure MetricEntry where
  key : String
  group : String
  sortBy : String
deriving DecidableEq

/-- Outcome of the underlying HTTP exchange in
`fetch_leaderboard_for_metric` / `fetch_player_leaderboard`:
a decoded body, a `requests.RequestException` (transport / HTTP status),
or a `ValueError` from JSON decoding.  Both exception classes are caught
inside the fetch functions. -/
inductive HttpOutcome (ρ : Type) where
  | success : ρ → HttpOutcome ρ
  | requestError : HttpOutcome ρ
  | decodeError : HttpOutcome ρ

/-- A decoded leaderboard response body as far as
`parse_leaderboard_rows` inspects it: `data["data"]["entries"]`, with
`none` when the path is missing or of the wrong shape. -/
structure ApiResponse (ρ : Type) where
  entriesField : Option (List ρ)

/-- The error body `{"success": False, "error": ..., "data": {}}` that the
fetch functions return on a caught exception: it has no entries. -/
def errorResponse {ρ : Type} : ApiResponse ρ := ⟨none⟩

/-- `fetch_player_leaderboard` from `rustinity_client.py`: performs the
HTTP exchange and maps every caught failure to the error body.  It never
raises for these failure modes. -/
def fetch_player_leaderboard (http : String → String → HttpOutcome (ApiResponse PlayerRow))
    (group sortBy : String) : ApiResponse PlayerRow :=
  match http group sortBy with
  | .success d => d
  | .requestError => errorResponse
  | .decodeError => errorResponse

/-- `fetch_leaderboard_for_metric` from `rustinity_client.py`, for a key
already present in `METRICS` (the orchestrator only calls it with such
keys). -/
def fetch_leaderboard_for_metric (http : String → HttpOutcome (ApiResponse ClanRow))
    (metricKey : String) : ApiResponse ClanRow :=
  match http metricKey with
  | .success d => d
  | .requestError => errorResponse
  | .decodeError => errorResponse

/-- `parse_leaderboard_rows` from `rustinity_client.py`: the entries, or
`[]` when the shape is unexpected. -/
def parse_leaderboard_rows {ρ : Type} (d : ApiResponse ρ) : List ρ := d.entriesField.getD []

/-- Result of a call observed by the `try/except` blocks of
`post_walobots_update`: either the call raised, or it returned a value. -/
inductive CallResult (ρ : Type) where
  | raised : CallResult ρ
  | ok : ρ → CallResult ρ
deriving DecidableEq

/-- The fetch-relevant state of one `post_walobots_update` cycle:
the `player_rows_cache` dict plus the issued-fetch traces (metric keys of
clan-leaderboard fetches, groups of player-leaderboard fetches, in
order). -/
structure CycleState where
  playerCache : String → Option (List PlayerRow)
  clanFetches : List String
  playerFetches : List String

/-- Body of the `for metric_key in metric_keys_to_fetch` loop of
`post_walobots_update`, restricted to its fetch/caching behaviour:
the clan leaderboard is fetched for every metric (a raise logs and skips
the metric); with no rows the metric is skipped; if tracking is enabled
and there are watched players or overrides, the player leaderboard for
the metric's group is fetched unless `player_rows_cache` already has the
group, and the parsed rows are cached only when the fetch returns
(a raise logs and skips via `continue`). -/
def cycleStep (tracking : Bool) (watchPlayers : List String)
    (overrides : List (String × String))
    (clanFetch : String → CallResult (List ClanRow))
    (playerFetch : String → String → CallResult (List PlayerRow))
    (st : CycleState) (m : MetricEntry) : CycleState :=
  let st1 := { st with clanFetches := st.clanFetches ++ [m.key] }
  match clanFetch m.key with
  | .raised => st1
  | .ok rows =>
    if rows = [] then st1
    else if tracking ∧ (watchPlayers ≠ [] ∨ overrides ≠ []) then
      match st1.playerCache m.group with
      | some _ => st1
      | none =>
        let st2 := { st1 with playerFetches := st1.playerFetches ++ [m.group] }
        match playerFetch m.group m.sortBy with
        | .raised => st2
        | .ok prows =>
          { st2 with playerCache := fun g =>
              if g = m.group then some prows else st2.playerCache g }
    else st1

/-- The fetch/caching skeleton of one `post_walobots_update` cycle:
fold `cycleStep` over the metric table, starting from an empty
`player_rows_cache` and empty traces. -/
def post_walobots_update_fetches (tracking : Bool) (watchPlayers : List String)
    (overrides : List (String × String))
    (clanFetch : String → CallResult (List ClanRow))
    (playerFetch : String → String → CallResult (List PlayerRow))
    (metrics : List MetricEntry) : CycleState :=
  metrics.foldl (cycleStep tracking watchPlayers overrides clanFetch playerFetch)
    ⟨fun _ => none, [], []⟩

/-- The clan-leaderboard fetch as the orchestrator experiences it: calling
`fetch_leaderboard_for_metric` and `parse_leaderboard_rows` — which catch
their failure modes internally — always returns. -/
def clanFetchOf (http : String → HttpOutcome (ApiResponse ClanRow)) :
    String → CallResult (List ClanRow) :=
  fun k => .ok (parse_leaderboard_rows (fetch_leaderboard_for_metric http k))

/-- The player-leaderboard fetch as the orchestrator experiences it. -/
def playerFetchOf (http : String → String → HttpOutcome (ApiResponse PlayerRow)) :
    String → String → CallResult (List PlayerRow) :=
  fun g s => .ok (parse_leaderboard_rows (fetch_player_leaderboard http g s))

/-! ### Helper lemmas shared by several claims -/

@[simp] theorem cacheDelta_none (v : Val) : cacheDelta none v = 0 := rfl

@[simp] theorem cacheDelta_some (l v : Val) : cacheDelta (some l) v = v - l := rfl

@[simp] theorem updMap_self {κ : Type} [DecidableEq κ] (m : Cache κ) (k : κ) (v : Val) :
    updMap m k v k = some v := by
  simp [updMap]

theorem alert_thresholds_pos (k : String) (t : Val) (h : ALERT_THRESHOLDS k = some t) :
    0 < t := by
  unfold ALERT_THRESHOLDS at h
  split_ifs at h <;> (injection h with h2; rw [← h2]) <;> norm_num

/-- C1: the first observation of a composite key stores the value and
produces no alert attempt, for the clan all-stats cache, the player
all-stats cache, and the spike-detector cache, regardless of the observed
value (for the spike detector, because every configured threshold is
positive and a first observation yields the sentinel delta `0`). -/
theorem first_observation_stores_without_alert :
    (∀ (group cl raw : String) (rank : Option Int) (sendOk : ℕ → Bool)
        (acc : WatchState) (k : String) (v : Val),
        acc.cache (group, cl, k) = none →
        (processClanStat group cl raw rank sendOk acc (k, some v)).alerts = acc.alerts ∧
        (processClanStat group cl raw rank sendOk acc (k, some v)).sent = acc.sent ∧
        (processClanStat group cl raw rank sendOk acc (k, some v)).cache (group, cl, k)
          = some v) ∧
    (∀ (group sid label username : String) (rank : Option Int) (sendOk : ℕ → Bool)
        (acc : PlayerState) (k : String) (v : Val),
        acc.cache (group, sid, k) = none →
        (processPlayerStat group sid label username rank sendOk acc (k, some v)).alerts
          = acc.alerts ∧
        (processPlayerStat group sid label username rank sendOk acc (k, some v)).sent
          = acc.sent ∧
        (processPlayerStat group sid label username rank sendOk acc (k, some v)).cache
          (group, sid, k) = some v) ∧
    (∀ (metricKey sortBy exemptClan : String) (sendOk : ℕ → Bool)
        (acc : SpikeState) (row : ClanRow) (v t : Val),
        ALERT_THRESHOLDS metricKey = some t →
        row.rawName ≠ "" →
        row.stats.lookup sortBy = some (some v) →
        acc.cache (metricKey, row.rawName) = none →
        (processSpikeRow metricKey sortBy exemptClan sendOk acc row).alerts = acc.alerts ∧
        (processSpikeRow metricKey sortBy exemptClan sendOk acc row).sent = acc.sent ∧
        (processSpikeRow metricKey sortBy exemptClan sendOk acc row).cache
          (metricKey, row.rawName) = some v) := by
  refine ⟨?_, ?_, ?_⟩
  · intro group cl raw rank sendOk acc k v h
    simp [processClanStat, h]
  · intro group sid label username rank sendOk acc k v h
    simp [processPlayerStat, h]
  · intro metricKey sortBy exemptClan sendOk acc row v t ht hname hlook hcache
    have hpos := alert_thresholds_pos metricKey t ht
    unfold processSpikeRow
    rw [if_neg hname, hlook, ht]
    simp only [hcache, cacheDelta_none]
    rw [if_pos hpos]
    simp

/-- Witness for C1: with an empty cache, observing `kills = 5` for watched
clan `a` attempts no alert and stores `5`. -/
theorem first_observation_stores_without_alert_witness :
    ((fun _ : WatchKey => (none : Option Val)) ("pvp", "a", "kills") = none) ∧
    (processClanStat "pvp" "a" "A" none (fun _ => true)
      ⟨fun _ => none, [], 0⟩ ("kills", some 5)).alerts = [] ∧
    (processClanStat "pvp" "a" "A" none (fun _ => true)
      ⟨fun _ => none, [], 0⟩ ("kills", some 5)).cache ("pvp", "a", "kills") = some 5 := by
  refine ⟨rfl, ?_, ?_⟩
  · exact (first_observation_stores_without_alert.1 "pvp" "a" "A" none (fun _ => true)
      ⟨fun _ => none, [], 0⟩ "kills" 5 rfl).1
  · exact (first_observation_stores_without_alert.1 "pvp" "a" "A" none (fun _ => true)
      ⟨fun _ => none, [], 0⟩ "kills" 5 rfl).2.2

/-- C2: for a processed row, a spike alert is attempted iff the computed
delta is at least the metric's configured threshold and the clan is not
the configured exempt clan (case-insensitive); an all-stats watch alert is
attempted iff the computed delta is positive, with no threshold involved.
Stated as exact equations on the attempted-alert trace. -/
theorem alert_attempt_conditions :
    (∀ (group cl raw : String) (rank : Option Int) (sendOk : ℕ → Bool)
        (acc : WatchState) (k : String) (v : Val),
        (processClanStat group cl raw rank sendOk acc (k, some v)).alerts
          = acc.alerts ++
            (if 0 < cacheDelta (acc.cache (group, cl, k)) v
             then [⟨raw, k, cacheDelta (acc.cache (group, cl, k)) v, v, rank⟩]
             else [])) ∧
    (∀ (metricKey sortBy exemptClan : String) (sendOk : ℕ → Bool)
        (acc : SpikeState) (row : ClanRow) (v t : Val),
        ALERT_THRESHOLDS metricKey = some t →
        row.rawName ≠ "" →
        row.stats.lookup sortBy = some (some v) →
        (processSpikeRow metricKey sortBy exemptClan sendOk acc row).alerts
          = acc.alerts ++
            (if t ≤ cacheDelta (acc.cache (metricKey, row.rawName)) v
                ∧ row.rawName.toLower ≠ exemptClan.toLower
             then [⟨row.rawName, metricKey,
                    cacheDelta (acc.cache (metricKey, row.rawName)) v, v, row.rank⟩]
             else [])) := by
  constructor
  · intro group cl raw rank sendOk acc k v
    by_cases h : cacheDelta (acc.cache (group, cl, k)) v ≤ 0
    · simp [processClanStat, h, not_lt.mpr h]
    · simp [processClanStat, h, lt_of_not_le h]
  · intro metricKey sortBy exemptClan sendOk acc row v t ht hname hlook
    by_cases hd : cacheDelta (acc.cache (metricKey, row.rawName)) v < t
    · simp [processSpikeRow, hname, hlook, ht, hd, not_le.mpr hd]
    · by_cases hex : row.rawName.toLower = exemptClan.toLower
      · simp [processSpikeRow, hname, hlook, ht, hd, hex]
      · simp [processSpikeRow, hname, hlook, ht, hd, hex, not_lt.mp hd]

/-- Witness for C2: a cached value `3` and a new value `10` for
`looted_hackable` (threshold `2`) yield delta `7 ≥ 2` for a non-exempt
clan, so exactly one spike alert is attempted. -/
theorem alert_attempt_conditions_witness :
    ALERT_THRESHOLDS "looted_hackable" = some 2 ∧
    (processSpikeRow "looted_hackable" "looted_hackable" "Walobots" (fun _ => true)
        ⟨[], fun k => if k = ("looted_hackable", "A") then some 3 else none, [], 0⟩
        { name := "A", rank := some 1, stats := [("looted_hackable", some 10)] }).alerts
      = [] ++
        (if (2 : Val) ≤ cacheDelta
              ((fun k => if k = ("looted_hackable", "A") then some 3 else none)
                ("looted_hackable",
                  ({ name := "A", rank := some 1,
                     stats := [("looted_hackable", some 10)] } : ClanRow).rawName)) 10
            ∧ ({ name := "A", rank := some 1,
                 stats := [("looted_hackable", some 10)] } : ClanRow).rawName.toLower
              ≠ "Walobots".toLower
         then [⟨({ name := "A", rank := some 1,
                   stats := [("looted_hackable", some 10)] } : ClanRow).rawName,
                "looted_hackable",
                cacheDelta ((fun k => if k = ("looted_hackable", "A") then some 3 else none)
                  ("looted_hackable",
                    ({ name := "A", rank := some 1,
                       stats := [("looted_hackable", some 10)] } : ClanRow).rawName)) 10,
                10,
                ({ name := "A", rank := some 1,
                   stats := [("looted_hackable", some 10)] } : ClanRow).rank⟩]
         else []) := by
  refine ⟨rfl, ?_⟩
  exact alert_attempt_conditions.2 "looted_hackable" "looted_hackable" "Walobots"
    (fun _ => true)
    ⟨[], fun k => if k = ("looted_hackable", "A") then some 3 else none, [], 0⟩
    { name := "A", rank := some 1, stats := [("looted_hackable", some 10)] }
    10 2 rfl (by with_unfolding_all decide) (by with_unfolding_all decide)

/-- C4: on an observation after the first, the computed delta is
`currentValue - lastValue`, and every observation overwrites the cache at
its composite key with the current value unconditionally — in particular
also when the value decreased — for the clan watch, the player watch, and
the spike detector (where the cache is consulted exactly when the metric
has a configured threshold). -/
theorem observe_delta_and_overwrite :
    (∀ (l v : Val), cacheDelta (some l) v = v - l) ∧
    (∀ (group cl raw : String) (rank : Option Int) (sendOk : ℕ → Bool)
        (acc : WatchState) (k : String) (v : Val),
        (processClanStat group cl raw rank sendOk acc (k, some v)).cache (group, cl, k)
          = some v) ∧
    (∀ (group sid label username : String) (rank : Option Int) (sendOk : ℕ → Bool)
        (acc : PlayerState) (k : String) (v : Val),
        (processPlayerStat group sid label username rank sendOk acc (k, some v)).cache
          (group, sid, k) = some v) ∧
    (∀ (metricKey sortBy exemptClan : String) (sendOk : ℕ → Bool)
        (acc : SpikeState) (row : ClanRow) (v t : Val),
        ALERT_THRESHOLDS metricKey = some t →
        row.rawName ≠ "" →
        row.stats.lookup sortBy = some (some v) →
        (processSpikeRow metricKey sortBy exemptClan sendOk acc row).cache
          (metricKey, row.rawName) = some v) := by
  refine ⟨fun l v => rfl, ?_, ?_, ?_⟩
  · intro group cl raw rank sendOk acc k v
    by_cases h : cacheDelta (acc.cache (group, cl, k)) v ≤ 0 <;>
      simp [processClanStat, h]
  · intro group sid label username rank sendOk acc k v
    by_cases h : cacheDelta (acc.cache (group, sid, k)) v ≤ 0 <;>
      simp [processPlayerStat, h]
  · intro metricKey sortBy exemptClan sendOk acc row v t ht hname hlook
    by_cases hd : cacheDelta (acc.cache (metricKey, row.rawName)) v < t
    · simp [processSpikeRow, hname, hlook, ht, hd]
    · by_cases hex : row.rawName.toLower = exemptClan.toLower <;>
        simp [processSpikeRow, hname, hlook, ht, hd, hex]

/-- Witness for C4: a cached `200` followed by an observation of `190`
(a decrease, so no alert) yields delta `-10` and still overwrites the
cache with `190`. -/
theorem observe_delta_and_overwrite_witness :
    cacheDelta (some 200) 190 = 190 - 200 ∧
    (processClanStat "pvp" "a" "A" none (fun _ => true)
        ⟨fun k => if k = ("pvp", "a", "kills") then some 200 else none, [], 0⟩
        ("kills", some 190)).cache ("pvp", "a", "kills") = some 190 := by
  refine ⟨observe_delta_and_overwrite.1 200 190, ?_⟩
  exact observe_delta_and_overwrite.2.1 "pvp" "a" "A" none (fun _ => true)
    ⟨fun k => if k = ("pvp", "a", "kills") then some 200 else none, [], 0⟩ "kills" 190

/-- C5: the spike detector processes only the first `TREND_TOP_N = 5` rows
of the leaderboard, and every processed row with a non-empty name and a
numeric value for the metric's sort field appends exactly one snapshot,
independently of thresholds, deltas, or the exempt clan. -/
theorem spike_top_rows_and_snapshot_append :
    (∀ (metricKey sortBy exemptClan : String) (cache : Cache SpikeKey)
        (sendOk : ℕ → Bool) (rows : List ClanRow),
        log_top_and_detect_spikes metricKey rows sortBy exemptClan cache sendOk
          = log_top_and_detect_spikes metricKey (rows.take TREND_TOP_N) sortBy
              exemptClan cache sendOk) ∧
    (∀ (metricKey sortBy exemptClan : String) (sendOk : ℕ → Bool)
        (acc : SpikeState) (row : ClanRow) (v : Val),
        row.rawName ≠ "" →
        row.stats.lookup sortBy = some (some v) →
        (processSpikeRow metricKey sortBy exemptClan sendOk acc row).snapshots
          = acc.snapshots ++ [⟨metricKey, row.rawName, row.rank, v⟩]) := by
  constructor
  · intro metricKey sortBy exemptClan cache sendOk rows
    cases rows with
    | nil => rfl
    | cons r rs =>
      unfold log_top_and_detect_spikes
      rw [if_neg (by simp), if_neg (by simp [TREND_TOP_N]), List.take_take]
      simp
  · intro metricKey sortBy exemptClan sendOk acc row v hname hlook
    rcases ht : ALERT_THRESHOLDS metricKey with _ | t
    · simp [processSpikeRow, hname, hlook, ht]
    · by_cases hd : cacheDelta (acc.cache (metricKey, row.rawName)) v < t
      · simp [processSpikeRow, hname, hlook, ht, hd]
      · by_cases hex : row.rawName.toLower = exemptClan.toLower <;>
          simp [processSpikeRow, hname, hlook, ht, hd, hex]

/-- Witness for C5: a sixth row is ignored entirely, and a row whose delta
stays below the threshold still gets its snapshot appended. -/
theorem spike_top_rows_and_snapshot_append_witness :
    log_top_and_detect_spikes "looted_hackable"
        [{ name := "A", stats := [("looted_hackable", some 1)] },
         { name := "B", stats := [("looted_hackable", some 2)] },
         { name := "C", stats := [("looted_hackable", some 3)] },
         { name := "D", stats := [("looted_hackable", some 4)] },
         { name := "E", stats := [("looted_hackable", some 5)] },
         { name := "F", stats := [("looted_hackable", some 6)] }]
        "looted_hackable" "Walobots" (fun _ => none) (fun _ => true)
      = log_top_and_detect_spikes "looted_hackable"
          (([{ name := "A", stats := [("looted_hackable", some 1)] },
             { name := "B", stats := [("looted_hackable", some 2)] },
             { name := "C", stats := [("looted_hackable", some 3)] },
             { name := "D", stats := [("looted_hackable", some 4)] },
             { name := "E", stats := [("looted_hackable", some 5)] },
             { name := "F", stats := [("looted_hackable", some 6)] }] : List ClanRow).take
            TREND_TOP_N)
          "looted_hackable" "Walobots" (fun _ => none) (fun _ => true) ∧
    (processSpikeRow "looted_hackable" "looted_hackable" "Walobots" (fun _ => true)
        ⟨[], fun _ => none, [], 0⟩
        { name := "A", rank := some 1, stats := [("looted_hackable", some 10)] }).snapshots
      = [] ++ [⟨"looted_hackable",
               ({ name := "A", rank := some 1,
                  stats := [("looted_hackable", some 10)] } : ClanRow).rawName,
               some 1, 10⟩] := by
  constructor
  · exact spike_top_rows_and_snapshot_append.1 "looted_hackable" "looted_hackable"
      "Walobots" (fun _ => none) (fun _ => true) _
  · exact spike_top_rows_and_snapshot_append.2 "looted_hackable" "looted_hackable"
      "Walobots" (fun _ => true) ⟨[], fun _ => none, [], 0⟩
      { name := "A", rank := some 1, stats := [("looted_hackable", some 10)] } 10
      (by with_unfolding_all decide) (by with_unfolding_all decide)

theorem mem_insertDesc {x y : TrendRow} {l : List TrendRow} :
    y ∈ insertDesc x l ↔ y = x ∨ y ∈ l := by
  induction l with
  | nil => simp [insertDesc]
  | cons z zs ih =>
    unfold insertDesc
    split_ifs with h
    · simp [List.mem_cons]
    · simp only [List.mem_cons, ih]
      tauto

theorem sorted_insertDesc {l : List TrendRow}
    (h : l.Pairwise (fun a b => b.delta ≤ a.delta)) (x : TrendRow) :
    (insertDesc x l).Pairwise (fun a b => b.delta ≤ a.delta) := by
  induction l with
  | nil => simp [insertDesc]
  | cons y ys ih =>
    rw [List.pairwise_cons] at h
    obtain ⟨h1, h2⟩ := h
    unfold insertDesc
    split_ifs with hxy
    · refine List.Pairwise.cons ?_ (List.Pairwise.cons h1 h2)
      intro z hz
      rcases List.mem_cons.mp hz with hz | hz
      · rw [hz]; exact hxy
      · exact le_trans (h1 z hz) hxy
    · refine List.Pairwise.cons ?_ (ih h2)
      intro z hz
      rcases mem_insertDesc.mp hz with hz | hz
      · rw [hz]; exact le_of_lt (lt_of_not_le hxy)
      · exact h1 z hz

theorem sorted_sortByDeltaDesc (rows : List TrendRow) :
    (sortByDeltaDesc rows).Pairwise (fun a b => b.delta ≤ a.delta) := by
  induction rows with
  | nil => simp [sortByDeltaDesc]
  | cons r rs ih => exact sorted_insertDesc ih r

/-- C3 (amended): the trend view has length at most 5, contains no entry
with delta `≤ 0`, and is sorted in non-increasing (descending, ties
allowed) order by delta — but not in strictly descending order, since two
clans with equal positive deltas both appear. -/
theorem trend_view_shape :
    ∀ (trend : List TrendInfo),
      (trendView trend).length ≤ 5 ∧
      (∀ r ∈ trendView trend, 0 < r.delta) ∧
      (trendView trend).Pairwise (fun a b => b.delta ≤ a.delta) := by
  intro trend
  refine ⟨?_, ?_, ?_⟩
  · exact le_trans (List.length_filter_le _ _) (List.length_take_le _ _)
  · intro r hr
    unfold trendView at hr
    rw [List.mem_filter] at hr
    have := hr.2
    simp only [decide_eq_true_eq] at this
    exact lt_of_not_le this
  · exact List.Pairwise.sublist
      ((List.filter_sublist _).trans (List.take_sublist _ _))
      (sorted_sortByDeltaDesc _)

/-- Witness for C3: with one clan gaining 5, the view lists it with a
positive delta. -/
theorem trend_view_shape_witness :
    (⟨"A", 5, 5, 1⟩ : TrendRow) ∈ trendView [⟨"A", 0, 5, 1⟩] ∧
    (0 : Val) < (⟨"A", 5, 5, 1⟩ : TrendRow).delta := by
  have hm : (⟨"A", 5, 5, 1⟩ : TrendRow) ∈ trendView [⟨"A", 0, 5, 1⟩] := by
    with_unfolding_all decide
  exact ⟨hm, (trend_view_shape [⟨"A", 0, 5, 1⟩]).2.1 _ hm⟩

/-- Counterexample to C3 as stated: two clans with the same positive delta
both appear in the trend view, so the view is not sorted *strictly*
descending by delta. -/
theorem trend_view_tie_not_strict :
    ¬ (trendView [⟨"A", 0, 5, 1⟩, ⟨"B", 0, 5, 2⟩]).Pairwise
        (fun a b => b.delta < a.delta) := by
  intro h
  have he : trendView [⟨"A", 0, 5, 1⟩, ⟨"B", 0, 5, 2⟩]
      = [⟨"A", 5, 5, 1⟩, ⟨"B", 5, 5, 2⟩] := by
    with_unfolding_all decide
  rw [he, List.pairwise_cons] at h
  have := h.1 ⟨"B", 5, 5, 2⟩ (by simp)
  exact absurd this (by norm_num)

/-- C6 (amended): the windowed-changes query returns an entry for a clan
iff the store holds at least one snapshot for that metric and clan with
timestamp `≥ now - hours * 3600`; there is no upper bound at `now`, and a
clan with no such snapshot is omitted — never given a synthesized zero
entry. -/
theorem windowed_changes_membership :
    ∀ (store : Store) (now : Int) (metricKey : String) (hours : Int) (clan : String),
      (∃ e, (clan, e) ∈ get_clan_metric_changes store now metricKey hours) ↔
      ∃ r ∈ store, r.metricKey = metricKey ∧ r.clanName = clan ∧
        now - hours * 3600 ≤ r.ts := by
  intro store now metricKey hours clan
  unfold get_clan_metric_changes
  constructor
  · rintro ⟨e, he⟩
    rw [List.mem_map] at he
    obtain ⟨c, hc, hce⟩ := he
    have hcc : c = clan := congrArg Prod.fst hce
    rw [hcc] at hc
    rw [List.mem_dedup, List.mem_map] at hc
    obtain ⟨r, hr, hrc⟩ := hc
    rw [List.mem_filter] at hr
    simp only [decide_eq_true_eq] at hr
    exact ⟨r, hr.1, hr.2.1, hrc, hr.2.2⟩
  · rintro ⟨r, hr, hmk, hcl, hts⟩
    refine ⟨_, List.mem_map.mpr ⟨clan, ?_, rfl⟩⟩
    rw [List.mem_dedup, List.mem_map]
    exact ⟨r, List.mem_filter.mpr ⟨hr, by simp [hmk, hts]⟩, hcl⟩

/-- Witness for C6 (amended): one in-window snapshot produces an entry for
its clan. -/
theorem windowed_changes_membership_witness :
    ∃ e, ("A", e) ∈ get_clan_metric_changes
      [⟨"m", "A", 90000, some 1, some 7⟩] 100000 "m" 12 := by
  refine (windowed_changes_membership
    [⟨"m", "A", 90000, some 1, some 7⟩] 100000 "m" 12 "A").mpr ?_
  exact ⟨⟨"m", "A", 90000, some 1, some 7⟩, by simp, rfl, rfl, by norm_num⟩

/-- Counterexample to C6 as stated: a snapshot with a timestamp strictly
greater than `now` (outside `[now - hours * 3600, now]`) still yields an
entry for its clan, because the query has no upper time bound. -/
theorem windowed_changes_future_snapshot_included :
    (∃ e, ("A", e) ∈ get_clan_metric_changes
      [⟨"m", "A", 50, none, some 1⟩] 0 "m" 12) ∧
    (∀ r ∈ ([⟨"m", "A", 50, none, some 1⟩] : Store),
      ¬ ((0 : Int) - 12 * 3600 ≤ r.ts ∧ r.ts ≤ 0)) := by
  constructor
  · exact ⟨⟨1, 1, 0⟩, by with_unfolding_all decide⟩
  · with_unfolding_all decide

theorem cycleStep_clanFetches (tracking : Bool) (wp : List String)
    (ov : List (String × String)) (cf : String → CallResult (List ClanRow))
    (pf : String → String → CallResult (List PlayerRow))
    (st : CycleState) (m : MetricEntry) :
    (cycleStep tracking wp ov cf pf st m).clanFetches = st.clanFetches ++ [m.key] := by
  unfold cycleStep
  rcases cf m.key with _ | rows
  · rfl
  · dsimp only
    split
    · rfl
    · split
      · split
        · rfl
        · split <;> rfl
      · rfl

theorem run_clanFetches (tracking : Bool) (wp : List String)
    (ov : List (String × String)) (cf : String → CallResult (List ClanRow))
    (pf : String → String → CallResult (List PlayerRow)) :
    ∀ (metrics : List MetricEntry) (st : CycleState),
      (metrics.foldl (cycleStep tracking wp ov cf pf) st).clanFetches
        = st.clanFetches ++ metrics.map (·.key) := by
  intro metrics
  induction metrics with
  | nil => intro st; simp
  | cons m ms ih =>
    intro st
    simp only [List.foldl_cons, List.map_cons]
    rw [ih, cycleStep_clanFetches]
    simp

theorem cycleStep_player_inv (tracking : Bool) (wp : List String)
    (ov : List (String × String)) (cf : String → CallResult (List ClanRow))
    (pf : String → String → CallResult (List PlayerRow))
    (st : CycleState) (m : MetricEntry) (g : String)
    (hnr : ∀ s, pf g s ≠ CallResult.raised)
    (h0 : st.playerCache g = none → st.playerFetches.count g = 0)
    (h1 : st.playerFetches.count g ≤ 1) :
    ((cycleStep tracking wp ov cf pf st m).playerCache g = none →
      (cycleStep tracking wp ov cf pf st m).playerFetches.count g = 0) ∧
    (cycleStep tracking wp ov cf pf st m).playerFetches.count g ≤ 1 := by
  unfold cycleStep
  rcases cf m.key with _ | rows
  · exact ⟨h0, h1⟩
  · dsimp only
    split
    · exact ⟨h0, h1⟩
    · split
      · rcases hpc : st.playerCache m.group with _ | cached
        · simp only [hpc]
          by_cases hg : m.group = g
          · rcases hpf : pf m.group m.sortBy with _ | prows
            · exact absurd (hg ▸ hpf) (hnr m.sortBy)
            · simp only [hpf]
              have hc0 : st.playerFetches.count g = 0 := h0 (hg ▸ hpc)
              constructor
              · intro hnone
                rw [if_pos hg.symm] at hnone
                exact absurd hnone (by simp)
              · simp [List.count_append, hc0, hg]
          · have hcnt : (st.playerFetches ++ [m.group]).count g
                = st.playerFetches.count g := by
              simp [List.count_append, List.count_singleton']
              intro hgg
              exact absurd hgg hg
            rcases hpf : pf m.group m.sortBy with _ | prows
            · simp only [hpf]
              exact ⟨fun h => hcnt ▸ h0 h, hcnt ▸ h1⟩
            · simp only [hpf]
              refine ⟨fun h => ?_, hcnt ▸ h1⟩
              rw [if_neg (fun hc => hg hc.symm)] at h
              exact hcnt ▸ h0 h
        · simp only [hpc]
          exact ⟨h0, h1⟩
      · exact ⟨h0, h1⟩

theorem run_player_inv (tracking : Bool) (wp : List String)
    (ov : List (String × String)) (cf : String → CallResult (List ClanRow))
    (pf : String → String → CallResult (List PlayerRow)) (g : String)
    (hnr : ∀ s, pf g s ≠ CallResult.raised) :
    ∀ (metrics : List MetricEntry) (st : CycleState),
      (st.playerCache g = none → st.playerFetches.count g = 0) →
      st.playerFetches.count g ≤ 1 →
      (metrics.foldl (cycleStep tracking wp ov cf pf) st).playerFetches.count g ≤ 1 := by
  intro metrics
  induction metrics with
  | nil => intro st h0 h1; exact h1
  | cons m ms ih =>
    intro st h0 h1
    simp only [List.foldl_cons]
    have h2 := cycleStep_player_inv tracking wp ov cf pf st m g hnr h0 h1
    exact ih _ h2.1 h2.2

/-- C7: within one poll cycle, each metric's clan leaderboard is fetched
at most once (the metric keys are distinct), and each group's player
leaderboard is fetched at most once — even when the upstream call fails,
because `fetch_player_leaderboard` catches its failure modes and returns
an error body whose parse (an empty row list) is cached for the rest of
the cycle; the next cycle is the only retry mechanism. -/
theorem cycle_fetch_retry_discipline :
    ∀ (tracking : Bool) (watchPlayers : List String)
      (overrides : List (String × String))
      (httpC : String → HttpOutcome (ApiResponse ClanRow))
      (httpP : String → String → HttpOutcome (ApiResponse PlayerRow))
      (metrics : List MetricEntry),
      (metrics.map (·.key)).Nodup →
      (∀ k, (post_walobots_update_fetches tracking watchPlayers overrides
          (clanFetchOf httpC) (playerFetchOf httpP) metrics).clanFetches.count k ≤ 1) ∧
      (∀ g, (post_walobots_update_fetches tracking watchPlayers overrides
          (clanFetchOf httpC) (playerFetchOf httpP) metrics).playerFetches.count g ≤ 1) := by
  intro tracking wp ov httpC httpP metrics hnd
  constructor
  · intro k
    unfold post_walobots_update_fetches
    rw [run_clanFetches]
    simp only [List.nil_append]
    exact List.nodup_iff_count_le_one.mp hnd k
  · intro g
    unfold post_walobots_update_fetches
    exact run_player_inv tracking wp ov _ _ g
      (fun s => by simp [playerFetchOf]) metrics _ (fun _ => rfl) (by simp)

/-- Witness for C7: two metrics of the same group with a failing upstream
player endpoint still fetch the group's player leaderboard at most once. -/
theorem cycle_fetch_retry_discipline_witness :
    (([⟨"pvp_kills", "pvp", "kill_player"⟩,
       ⟨"pvp_deaths", "pvp", "death_player"⟩] : List MetricEntry).map (·.key)).Nodup ∧
    (post_walobots_update_fetches true ["76561198000000000"] []
        (clanFetchOf (fun _ => .success
          ⟨some [{ name := "A", stats := [("kill_player", some 1)] }]⟩))
        (playerFetchOf (fun _ _ => .requestError))
        [⟨"pvp_kills", "pvp", "kill_player"⟩,
         ⟨"pvp_deaths", "pvp", "death_player"⟩]).playerFetches.count "pvp" ≤ 1 := by
  refine ⟨by decide, ?_⟩
  exact (cycle_fetch_retry_discipline true ["76561198000000000"] []
    (fun _ => .success ⟨some [{ name := "A", stats := [("kill_player", some 1)] }]⟩)
    (fun _ _ => .requestError)
    [⟨"pvp_kills", "pvp", "kill_player"⟩, ⟨"pvp_deaths", "pvp", "death_player"⟩]
    (by decide)).2 "pvp"

/-- C8 (amended): for every non-empty clan name, adding it and then
listing includes its lowercased form; removing it and then listing
excludes any case-insensitive match (given the registry invariant that
stored names are lowercase, which every write path maintains); add and
remove are idempotent; and only the lowercased name is ever stored.
Adding the empty string is a no-op. -/
theorem watch_clan_roundtrip :
    ∀ (db : WatchClanTable) (name : String), name ≠ "" →
      (∀ e ∈ db, e.toLower = e) →
      (name.toLower ∈ get_watch_clans (add_watch_clan db name)) ∧
      (∀ e ∈ get_watch_clans (add_watch_clan db name), e ∈ db ∨ e = name.toLower) ∧
      (name.toLower ∉ get_watch_clans (remove_watch_clan db name)) ∧
      (∀ e ∈ get_watch_clans (remove_watch_clan db name),
        e.toLower ≠ name.toLower) ∧
      (add_watch_clan (add_watch_clan db name) name = add_watch_clan db name) ∧
      (remove_watch_clan (remove_watch_clan db name) name
        = remove_watch_clan db name) := by
  intro db name hne hlow
  refine ⟨?_, ?_, ?_, ?_, ?_, ?_⟩
  · unfold add_watch_clan get_watch_clans
    rw [if_neg hne]
    simp only []
    split_ifs with h
    · exact h
    · simp
  · intro e he
    unfold add_watch_clan get_watch_clans at he
    rw [if_neg hne] at he
    simp only [] at he
    split_ifs at he with h
    · exact Or.inl he
    · rcases List.mem_append.mp he with h2 | h2
      · exact Or.inl h2
      · exact Or.inr (List.mem_singleton.mp h2)
  · unfold remove_watch_clan get_watch_clans
    rw [if_neg hne]
    intro h
    have := (List.mem_filter.mp h).2
    simp at this
  · intro e he
    unfold remove_watch_clan get_watch_clans at he
    rw [if_neg hne] at he
    have h2 := List.mem_filter.mp he
    have h3 : e ≠ name.toLower := by simpa using h2.2
    rw [hlow e h2.1]
    exact h3
  · unfold add_watch_clan
    rw [if_neg hne, if_neg hne]
    simp only []
    by_cases hmem : name.toLower ∈ db <;> simp [hmem]
  · unfold remove_watch_clan
    rw [if_neg hne, if_neg hne]
    apply List.filter_eq_self.mpr
    intro e he
    exact (List.mem_filter.mp he).2

/-- Witness for C8 at a concrete registry. -/
theorem watch_clan_roundtrip_witness :
    ("BaR" : String) ≠ "" ∧
    "BaR".toLower ∈ get_watch_clans (add_watch_clan ["foo"] "BaR") ∧
    "BaR".toLower ∉ get_watch_clans (remove_watch_clan ["foo", "bar"] "BaR") := by
  have h1 := (watch_clan_roundtrip ["foo"] "BaR" (by decide)
    (by with_unfolding_all decide)).1
  have h2 := (watch_clan_roundtrip ["foo", "bar"] "BaR" (by decide)
    (by with_unfolding_all decide)).2.2.1
  exact ⟨by decide, h1, h2⟩

/-- Counterexample to C8 as stated: `add_watch_clan` ignores the empty
string entirely, so adding the empty clan name and then listing does not
include it (even case-insensitively). -/
theorem add_empty_clan_name_is_noop :
    ¬ ∃ e ∈ get_watch_clans (add_watch_clan [] ""), e.toLower = "".toLower := by
  with_unfolding_all decide

/-- The label-resolution order as the spec words it: the override label
when an override exists, else the row-provided clan label when the row
provides one (a falsy `clanName` provides none), else `"Unknown"`. -/
def specLabel (ov : Option String) (rowClan : String) : String :=
  match ov with
  | some l => l
  | none => if rowClan = "" then "Unknown" else rowClan

/-- C9: a player leaderboard row is processed iff the player's id is in
the watch registry OR has a manual clan override, and the label used for
its alerts follows the order override label → row-provided clan label →
`"Unknown"`.  The hypotheses — the registry and the override table never
hold the empty id, and override labels are never empty — are maintained
by every write path (`add_watch_player` ignores falsy ids, env seeding
strips empties, and `_parse_overrides` keeps only non-empty pairs). -/
theorem player_row_tracking :
    ∀ (group : String) (watchedPlayers : List String)
      (overrides : List (String × String)) (sendOk : ℕ → Bool)
      (acc : PlayerState) (row : PlayerRow),
      "" ∉ watchedPlayers →
      overrides.lookup "" = none →
      (∀ l, overrides.lookup row.steamId.trim = some l → l ≠ "") →
      processPlayerRow group watchedPlayers overrides sendOk acc row
        = if row.steamId.trim ∈ watchedPlayers
              ∨ (overrides.lookup row.steamId.trim).isSome
          then row.stats.foldl
            (processPlayerStat group row.steamId.trim
              (specLabel (overrides.lookup row.steamId.trim) row.clanName)
              row.username row.rank sendOk) acc
          else acc := by
  intro group watchedPlayers overrides sendOk acc row hw ho hlab
  unfold processPlayerRow
  simp only []
  by_cases hsid : row.steamId.trim = ""
  · rw [if_pos hsid, hsid]
    have hcond : ¬ (("" : String) ∈ watchedPlayers
        ∨ (overrides.lookup ("" : String)).isSome = true) := by
      rw [ho]
      simp only [Option.isSome_none, Bool.false_eq_true, or_false]
      exact hw
    rw [if_neg hcond]
  · rw [if_neg hsid]
    by_cases htr : row.steamId.trim ∈ watchedPlayers
        ∨ (overrides.lookup row.steamId.trim).isSome
    · rw [if_pos htr]
      have hcond : ¬ (row.steamId.trim ∉ watchedPlayers
          ∧ overrides.lookup row.steamId.trim = none) := by
        rcases htr with h | h
        · exact fun hc => hc.1 h
        · exact fun hc => by rw [hc.2] at h; simp at h
      rw [if_neg hcond]
      have hlabel : resolveLabel (overrides.lookup row.steamId.trim) row.clanName
          = specLabel (overrides.lookup row.steamId.trim) row.clanName := by
        rcases hov : overrides.lookup row.steamId.trim with _ | l
        · rfl
        · have hl := hlab l hov
          unfold resolveLabel specLabel orElseStr
          simp [hl]
      rw [hlabel]
    · rw [if_neg htr]
      rw [not_or] at htr
      rw [if_pos ⟨htr.1, Option.not_isSome_iff_eq_none.mp htr.2⟩]

/-- Witness for C9: player `123` is absent from the watch list but has the
override `123 → Raiders`; its row is still diffed and the alert carries
the label `Raiders`. -/
theorem player_row_tracking_witness :
    (processPlayerRow "pvp" [] [("123", "Raiders")] (fun _ => true)
        ⟨fun k => if k = ("pvp", "123", "kill_player") then some 2 else none, [], 0⟩
        { steamId := "123", stats := [("kill_player", some 5)] }).alerts
      = [⟨"Unknown", "Raiders", "kill_player", 3, 5, none⟩] := by
  have h := player_row_tracking "pvp" [] [("123", "Raiders")] (fun _ => true)
    ⟨fun k => if k = ("pvp", "123", "kill_player") then some 2 else none, [], 0⟩
    { steamId := "123", stats := [("kill_player", some 5)] }
    (by simp) (by with_unfolding_all decide)
    (by
      intro l hl
      have hl2 : l = "Raiders" := by
        have : (([("123", "Raiders")] : List (String × String)).lookup
            ("123" : String).trim) = some "Raiders" := by with_unfolding_all decide
        rw [this] at hl
        exact (Option.some_injective _ hl).symm
      rw [hl2]
      decide)
  rw [h]
  with_unfolding_all decide

theorem processClanStat_sendOk_agree (o1 o2 : ℕ → Bool) (g cl raw : String)
    (rk : Option Int) (s : String × Option Val) (a1 a2 : WatchState)
    (hc : a1.cache = a2.cache) (ha : a1.alerts = a2.alerts) :
    (processClanStat g cl raw rk o1 a1 s).cache
      = (processClanStat g cl raw rk o2 a2 s).cache ∧
    (processClanStat g cl raw rk o1 a1 s).alerts
      = (processClanStat g cl raw rk o2 a2 s).alerts := by
  rcases s with ⟨k, _ | v⟩
  · exact ⟨hc, ha⟩
  · by_cases hd : cacheDelta (a2.cache (g, cl, k)) v ≤ 0 <;>
      simp [processClanStat, hc, ha, hd]

theorem foldClanStats_sendOk_agree (o1 o2 : ℕ → Bool) (g cl raw : String)
    (rk : Option Int) :
    ∀ (stats : List (String × Option Val)) (a1 a2 : WatchState),
      a1.cache = a2.cache → a1.alerts = a2.alerts →
      (stats.foldl (processClanStat g cl raw rk o1) a1).cache
        = (stats.foldl (processClanStat g cl raw rk o2) a2).cache ∧
      (stats.foldl (processClanStat g cl raw rk o1) a1).alerts
        = (stats.foldl (processClanStat g cl raw rk o2) a2).alerts := by
  intro stats
  induction stats with
  | nil => intro a1 a2 hc ha; exact ⟨hc, ha⟩
  | cons s ss ih =>
    intro a1 a2 hc ha
    simp only [List.foldl_cons]
    have h := processClanStat_sendOk_agree o1 o2 g cl raw rk s a1 a2 hc ha
    exact ih _ _ h.1 h.2

theorem processClanRow_sendOk_agree (o1 o2 : ℕ → Bool) (g : String)
    (watched : List String) (row : ClanRow) (a1 a2 : WatchState)
    (hc : a1.cache = a2.cache) (ha : a1.alerts = a2.alerts) :
    (processClanRow g watched o1 a1 row).cache
      = (processClanRow g watched o2 a2 row).cache ∧
    (processClanRow g watched o1 a1 row).alerts
      = (processClanRow g watched o2 a2 row).alerts := by
  unfold processClanRow
  simp only []
  split_ifs with h1 h2
  · exact ⟨hc, ha⟩
  · exact foldClanStats_sendOk_agree o1 o2 g row.rawName.toLower row.rawName
      row.rank row.stats a1 a2 hc ha
  · exact ⟨hc, ha⟩

theorem foldClanRows_sendOk_agree (o1 o2 : ℕ → Bool) (g : String)
    (watched : List String) :
    ∀ (rows : List ClanRow) (a1 a2 : WatchState),
      a1.cache = a2.cache → a1.alerts = a2.alerts →
      (rows.foldl (processClanRow g watched o1) a1).cache
        = (rows.foldl (processClanRow g watched o2) a2).cache ∧
      (rows.foldl (processClanRow g watched o1) a1).alerts
        = (rows.foldl (processClanRow g watched o2) a2).alerts := by
  intro rows
  induction rows with
  | nil => intro a1 a2 hc ha; exact ⟨hc, ha⟩
  | cons r rs ih =>
    intro a1 a2 hc ha
    simp only [List.foldl_cons]
    have h := processClanRow_sendOk_agree o1 o2 g watched r a1 a2 hc ha
    exact ih _ _ h.1 h.2

theorem processSpikeRow_sendOk_agree (o1 o2 : ℕ → Bool) (mk sb ex : String)
    (row : ClanRow) (a1 a2 : SpikeState) (hs : a1.snapshots = a2.snapshots)
    (hc : a1.cache = a2.cache) (ha : a1.alerts = a2.alerts) :
    (processSpikeRow mk sb ex o1 a1 row).snapshots
      = (processSpikeRow mk sb ex o2 a2 row).snapshots ∧
    (processSpikeRow mk sb ex o1 a1 row).cache
      = (processSpikeRow mk sb ex o2 a2 row).cache ∧
    (processSpikeRow mk sb ex o1 a1 row).alerts
      = (processSpikeRow mk sb ex o2 a2 row).alerts := by
  by_cases h1 : row.rawName = ""
  · simp [processSpikeRow, h1]
    exact ⟨hs, hc, ha⟩
  · rcases hl : row.stats.lookup sb with _ | ov
    · simp [processSpikeRow, h1, hl]
      exact ⟨hs, hc, ha⟩
    · rcases ov with _ | v
      · simp [processSpikeRow, h1, hl]
        exact ⟨hs, hc, ha⟩
      · rcases ht : ALERT_THRESHOLDS mk with _ | t
        · simp [processSpikeRow, h1, hl, ht, hs, hc, ha]
        · by_cases hd : cacheDelta (a2.cache (mk, row.rawName)) v < t
          · simp [processSpikeRow, h1, hl, ht, hc, ha, hs, hd]
          · by_cases hex : row.rawName.toLower = ex.toLower <;>
              simp [processSpikeRow, h1, hl, ht, hc, ha, hs, hd, hex]

theorem foldSpikeRows_sendOk_agree (o1 o2 : ℕ → Bool) (mk sb ex : String) :
    ∀ (rows : List ClanRow) (a1 a2 : SpikeState),
      a1.snapshots = a2.snapshots → a1.cache = a2.cache → a1.alerts = a2.alerts →
      (rows.foldl (processSpikeRow mk sb ex o1) a1).snapshots
        = (rows.foldl (processSpikeRow mk sb ex o2) a2).snapshots ∧
      (rows.foldl (processSpikeRow mk sb ex o1) a1).cache
        = (rows.foldl (processSpikeRow mk sb ex o2) a2).cache ∧
      (rows.foldl (processSpikeRow mk sb ex o1) a1).alerts
        = (rows.foldl (processSpikeRow mk sb ex o2) a2).alerts := by
  intro rows
  induction rows with
  | nil => intro a1 a2 hs hc ha; exact ⟨hs, hc, ha⟩
  | cons r rs ih =>
    intro a1 a2 hs hc ha
    simp only [List.foldl_cons]
    have h := processSpikeRow_sendOk_agree o1 o2 mk sb ex r a1 a2 hs hc ha
    exact ih _ _ h.1 h.2.1 h.2.2

/-- C10: the sequence of cache overwrites, appended snapshots, and
attempted alerts of a watch or spike pass does not depend on which alert
sends succeed: the cache (and, for the spike detector, the snapshot
trace) is already updated when a send is attempted, so after a failed
send the state equals the state after a successful one except for the
sent counter — hence a missed delta is never re-alerted on a later
cycle. -/
theorem send_failure_state_independence :
    (∀ (group : String) (watchClans : List String) (rows : List ClanRow)
        (cache : Cache WatchKey) (o1 o2 : ℕ → Bool),
        (track_watch_clan_all_stats group watchClans rows cache o1).cache
          = (track_watch_clan_all_stats group watchClans rows cache o2).cache ∧
        (track_watch_clan_all_stats group watchClans rows cache o1).alerts
          = (track_watch_clan_all_stats group watchClans rows cache o2).alerts) ∧
    (∀ (metricKey sortBy exemptClan : String) (rows : List ClanRow)
        (cache : Cache SpikeKey) (o1 o2 : ℕ → Bool),
        (log_top_and_detect_spikes metricKey rows sortBy exemptClan cache o1).snapshots
          = (log_top_and_detect_spikes metricKey rows sortBy exemptClan cache
              o2).snapshots ∧
        (log_top_and_detect_spikes metricKey rows sortBy exemptClan cache o1).cache
          = (log_top_and_detect_spikes metricKey rows sortBy exemptClan cache
              o2).cache ∧
        (log_top_and_detect_spikes metricKey rows sortBy exemptClan cache o1).alerts
          = (log_top_and_detect_spikes metricKey rows sortBy exemptClan cache
              o2).alerts) := by
  constructor
  · intro group watchClans rows cache o1 o2
    unfold track_watch_clan_all_stats
    split_ifs
    · exact ⟨rfl, rfl⟩
    · exact ⟨rfl, rfl⟩
    · exact foldClanRows_sendOk_agree o1 o2 group (watchClans.map String.toLower)
        rows _ _ rfl rfl
  · intro metricKey sortBy exemptClan rows cache o1 o2
    unfold log_top_and_detect_spikes
    split_ifs
    · exact ⟨rfl, rfl, rfl⟩
    · exact foldSpikeRows_sendOk_agree o1 o2 metricKey sortBy exemptClan
        (rows.take TREND_TOP_N) _ _ rfl rfl rfl

end RustinityBot
